import Mathlib

/-! DLP e-mail classifier UI: request builder, submission controller, result card.

A shallow embedding of `ui/src/components/ClassifierForm.jsx`, `ui/src/App.jsx` and
`ui/src/components/ResultCard.jsx`, followed by the properties proved about them.
-/

namespace DlpUi

/-! ## Strings -/

/-- A JavaScript string, as the sequence of its characters.  Every operation used by the
sources (`split(',')`, `trim`, `===`, truthiness, concatenation) treats a character outside
the basic plane as an ordinary non-blank, non-comma element, exactly as it treats the
surrogate pair that encodes it. -/
abbrev JSString := List Char

/-- Code points of ECMAScript `WhiteSpace` and `LineTerminator`: the characters that
`String.prototype.trim` removes. -/
def whiteSpaceCodes : List Nat :=
  [0x0009, 0x000A, 0x000B, 0x000C, 0x000D, 0x0020, 0x00A0, 0x1680,
   0x2000, 0x2001, 0x2002, 0x2003, 0x2004, 0x2005, 0x2006, 0x2007, 0x2008, 0x2009, 0x200A,
   0x2028, 0x2029, 0x202F, 0x205F, 0x3000, 0xFEFF]

/-- Whether `trim` strips the character. -/
def isWhiteSpace (c : Char) : Bool := whiteSpaceCodes.contains c.toNat

/-- `String.prototype.split` with a one-character separator: the segments between the
occurrences of `sep`; a string with `n` separators has `n + 1` segments, so
`"".split(',')` is `[""]`. -/
def split (sep : Char) : JSString → List JSString
  | [] => [[]]
  | c :: cs =>
    if c = sep then [] :: split sep cs
    else
      match split sep cs with
      | [] => [[c]]
      | seg :: rest => (c :: seg) :: rest

/-- `String.prototype.trimStart`. -/
def trimStart (s : JSString) : JSString := s.dropWhile isWhiteSpace

/-- `String.prototype.trimEnd`. -/
def trimEnd (s : JSString) : JSString := s.rdropWhile isWhiteSpace

/-- `String.prototype.trim`. -/
def trim (s : JSString) : JSString := trimEnd (trimStart s)

/-- `Array.prototype.join` on an array of strings. -/
def join (sep : JSString) : List JSString → JSString
  | [] => []
  | [x] => x
  | x :: y :: rest => x ++ sep ++ join sep (y :: rest)

/-- Truthiness of a string: every string but the empty one. -/
def strTruthy (s : JSString) : Bool := !s.isEmpty

/-! ## `ClassifierForm.jsx`: the request builder -/

/-- One entry of the payload's `attachments` array. -/
structure Attachment where
  filename : JSString
  deriving DecidableEq, Repr

/-- The `headers` object of the payload. -/
structure Headers where
  From : JSString
  To : JSString
  deriving DecidableEq, Repr

/-- The object `handleSubmit` hands to `onSubmit`. -/
structure Payload where
  subject : JSString
  body : JSString
  headers : Headers
  attachments : List Attachment
  deriving DecidableEq, Repr

/-- The five `useState` cells of `ClassifierForm`. -/
structure FormState where
  fromAddr : JSString
  toAddr : JSString
  subject : JSString
  body : JSString
  attachments : JSString
  deriving DecidableEq, Repr

/-- The value of the `attachments` property in `handleSubmit`:
the empty array when the field is empty, otherwise the trimmed comma-separated segments,
each wrapped as an object with the one property `filename`, the entries with a falsy
`filename` filtered out. -/
def attachmentsOf (attachments : JSString) : List Attachment :=
  if strTruthy attachments then
    ((split ',' attachments).map (fun x => Attachment.mk (trim x))).filter
      (fun x => strTruthy x.filename)
  else []

/-- The payload `handleSubmit` builds from the form fields and passes to `onSubmit`. -/
def handleSubmit (f : FormState) : Payload :=
  { subject := f.subject
    body := f.body
    headers := { From := f.fromAddr, To := f.toAddr }
    attachments := attachmentsOf f.attachments }

/-- The request builder in the words of the specification: split the CSV on commas, trim
each segment, discard the segments that are empty after trimming, wrap the rest. -/
def specAttachments (csv : JSString) : List Attachment :=
  (((split ',' csv).map trim).filter (fun seg => decide (seg ≠ []))).map Attachment.mk

/-- The filenames of a list of attachments. -/
def filenames (as : List Attachment) : List JSString := as.map Attachment.filename

/-! ## Numbers -/

/-- A Number value.  A finite one is `± m * 2 ^ e`, sign and magnitude as in IEEE 754
binary64, where every value has `m < 2 ^ 53` and `-1074 ≤ e ≤ 971`; `-0` is
`fin true 0 e`. -/
inductive JSNum
  | fin (negative : Bool) (m : Nat) (e : Int)
  | nan
  | inf (negative : Bool)
  deriving DecidableEq, Repr

/-- The exact value of a finite Number (`0` for the others). -/
def JSNum.toRat : JSNum → ℚ
  | .fin negative m e => (if negative then -1 else 1) * (m : ℚ) * (2 : ℚ) ^ e
  | _ => 0

/-- Number of binary digits of `n`, by halving; the first argument bounds the halvings. -/
def bitLengthAux : Nat → Nat → Nat
  | 0, _ => 0
  | fuel + 1, n => if n = 0 then 0 else bitLengthAux fuel (n / 2) + 1

/-- Number of binary digits of `n`: the least `k` with `n < 2 ^ k`. -/
def bitLength (n : Nat) : Nat := bitLengthAux n n

/-- The integer nearest to `m / 2 ^ s`, a tie going to the even one. -/
def roundShift (m s : Nat) : Nat :=
  let q := m / 2 ^ s
  let r := m % 2 ^ s
  if 2 * r < 2 ^ s then q
  else if 2 ^ s < 2 * r then q + 1
  else if q % 2 = 0 then q else q + 1

/-- The binary64 value nearest to the exact `± m * 2 ^ e` (round to nearest, ties to
even): the significand keeps 53 bits and the exponent stays at or above `-1074`; a result
of magnitude `2 ^ 1024` or more is an infinity. -/
def roundToDouble (negative : Bool) (m : Nat) (e : Int) : JSNum :=
  let s := max (max ((bitLength m : Int) - 53) (-1074 - e)) 0
  let m' := roundShift m s.toNat
  let e' := e + s
  if m' ≠ 0 ∧ 1024 < (bitLength m' : Int) + e' then JSNum.inf negative
  else JSNum.fin negative m' e'

/-- The `*` operator on Numbers. -/
def JSNum.mul : JSNum → JSNum → JSNum
  | .fin n₁ m₁ e₁, .fin n₂ m₂ e₂ => roundToDouble (xor n₁ n₂) (m₁ * m₂) (e₁ + e₂)
  | .nan, _ => .nan
  | _, .nan => .nan
  | .inf n₁, .inf n₂ => .inf (xor n₁ n₂)
  | .inf n₁, .fin n₂ m _ => if m = 0 then .nan else .inf (xor n₁ n₂)
  | .fin n₁ m _, .inf n₂ => if m = 0 then .nan else .inf (xor n₁ n₂)

/-- The Number `100`. -/
def hundred : JSNum := .fin false 100 0

/-- `Math.round`: the integer nearest to the argument, a tie going towards `+∞`; an
argument in `[-0.5, -0]` gives `-0`. -/
def mathRound : JSNum → JSNum
  | .fin negative m e =>
    if 0 ≤ e then .fin negative (m * 2 ^ e.toNat) 0
    else
      let k := (-e).toNat
      if negative then .fin true ((2 * m + 2 ^ k - 1) / 2 ^ (k + 1)) 0
      else .fin false ((2 * m + 2 ^ k) / 2 ^ (k + 1)) 0
  | x => x

/-- Whether a finite magnitude `m * 2 ^ e` is an integer below `2 ^ 53`, and which. -/
def safeInteger? (m : Nat) (e : Int) : Option Nat :=
  if 0 ≤ e then
    (if m * 2 ^ e.toNat < 2 ^ 53 then some (m * 2 ^ e.toNat) else none)
  else if m % 2 ^ (-e).toNat = 0 ∧ m / 2 ^ (-e).toNat < 2 ^ 53 then some (m / 2 ^ (-e).toNat)
  else none

/-- `Number::toString` (radix 10).  An integer of magnitude below `2 ^ 53` prints as its
decimal digits, `-0` as `0`; `other` is the host's rendering of every other finite
value (its shortest round-trip digits). -/
def numberToString (other : JSNum → JSString) : JSNum → JSString
  | .nan => "NaN".toList
  | .inf false => "Infinity".toList
  | .inf true => "-Infinity".toList
  | .fin negative m e =>
    match safeInteger? m e with
    | some n => (if negative ∧ n ≠ 0 then ['-'] else []) ++ Nat.toDigits 10 n
    | none => other (.fin negative m e)

/-- The integer `n` for which `n / 10` is nearest to the magnitude `m * 2 ^ e`, the
larger one on a tie (step 9 of `Number.prototype.toFixed` with one fraction digit). -/
def nearestTenths (m : Nat) (e : Int) : Nat :=
  if 0 ≤ e then 10 * m * 2 ^ e.toNat
  else (20 * m + 2 ^ (-e).toNat) / 2 ^ ((-e).toNat + 1)

/-- Steps 10 and 11 of `toFixed(1)`: the digits of `n`, padded to two digits, with a point
before the last one. -/
def insertPoint (n : Nat) : JSString :=
  let m := Nat.toDigits 10 n
  let m := if m.length ≤ 1 then List.replicate (2 - m.length) '0' ++ m else m
  m.take (m.length - 1) ++ ['.'] ++ m.drop (m.length - 1)

/-- Whether `bound ≤ m * 2 ^ e`. -/
def magnitudeAtLeast (bound m : Nat) (e : Int) : Bool :=
  if 0 ≤ e then decide (bound ≤ m * 2 ^ e.toNat) else decide (bound * 2 ^ (-e).toNat ≤ m)

/-- `Number.prototype.toFixed(1)`.  A value that is not finite or whose magnitude is
`10 ^ 21` or more is rendered by `Number::toString`. -/
def toFixed1 (other : JSNum → JSString) : JSNum → JSString
  | .fin negative m e =>
    if magnitudeAtLeast (10 ^ 21) m e then numberToString other (.fin negative m e)
    else (if negative ∧ m ≠ 0 then ['-'] else []) ++ insertPoint (nearestTenths m e)
  | x => numberToString other x

/-- Truthiness of a Number: every one but `±0` and `NaN`. -/
def numTruthy : JSNum → Bool
  | .fin _ m _ => m ≠ 0
  | .nan => false
  | .inf _ => true

/-! ## Values -/

/-- A JavaScript value as `JSON.parse` or an object literal produces it, and `undefined`.
The properties of an object are listed in its own enumeration order, each key once. -/
inductive JSVal
  | undefined
  | null
  | bool (b : Bool)
  | num (n : JSNum)
  | str (s : JSString)
  | arr (items : List JSVal)
  | obj (props : List (JSString × JSVal))

/-- `ToBoolean`. -/
def truthy : JSVal → Bool
  | .undefined => false
  | .null => false
  | .bool b => b
  | .num n => numTruthy n
  | .str s => strTruthy s
  | .arr _ => true
  | .obj _ => true

/-- The value stored under `key` among an object's own properties, `undefined` when there
is none. -/
def lookup (key : JSString) : List (JSString × JSVal) → JSVal
  | [] => .undefined
  | (k, v) :: rest => if k = key then v else lookup key rest

/-- Property read `v.key` on a value other than `null` and `undefined`, for the property
names the components read (`error`, `action`, `label`, `score`, `scores`, `rationale`,
`length`): an own property of an object, the `length` of an array or string, and
`undefined` otherwise. -/
def getProp (v : JSVal) (key : JSString) : JSVal :=
  match v with
  | .obj props => lookup key props
  | .arr items => if key = "length".toList then .num (.fin false items.length 0) else .undefined
  | .str s => if key = "length".toList then .num (.fin false s.length 0) else .undefined
  | _ => .undefined

/-- Optional chaining `v?.key`. -/
def getPropOpt (v : JSVal) (key : JSString) : JSVal :=
  match v with
  | .undefined => .undefined
  | .null => .undefined
  | w => getProp w key

/-- Strict equality `v === s` with a string `s`. -/
def strictEqStr (v : JSVal) (s : JSString) : Bool :=
  match v with
  | .str t => decide (t = s)
  | _ => false

/-- `Object.entries` on a value other than `null` and `undefined`. -/
def entries : JSVal → List (JSString × JSVal)
  | .obj props => props
  | .arr items => items.enum.map (fun p => (Nat.toDigits 10 p.1, p.2))
  | .str s => s.enum.map (fun p => (Nat.toDigits 10 p.1, JSVal.str [p.2]))
  | _ => []

/-- The conversions of the language that the components reach only on values outside the
response contract; they are left to the host. -/
structure Host where
  /-- Number to string, for a finite value that is not an integer below `2 ^ 53`. -/
  numberToString : JSNum → JSString
  /-- String, array or object to number (`ToNumber`); it can throw. -/
  toNumber : JSVal → Except JSString JSNum
  /-- Array or object to string (`ToString`); it can throw. -/
  toStr : JSVal → Except JSString JSString

/-- `ToNumber`. -/
def toNumber (h : Host) : JSVal → Except JSString JSNum
  | .num n => .ok n
  | .undefined => .ok .nan
  | .null => .ok (.fin false 0 0)
  | .bool b => .ok (.fin false (if b then 1 else 0) 0)
  | v => h.toNumber v

/-- The string `Array.prototype.join` uses for one element. -/
def elementToString (h : Host) : JSVal → Except JSString JSString
  | .undefined => .ok []
  | .null => .ok []
  | .str s => .ok s
  | .bool b => .ok (if b then "true".toList else "false".toList)
  | .num n => .ok (numberToString h.numberToString n)
  | v => h.toStr v

/-! ## `ResultCard.jsx` -/

/-- One score pill: its React key, the text of the `kbd` span, the text of the `strong`
element. -/
structure Pill where
  key : JSString
  label : JSString
  value : JSString
  deriving DecidableEq, Repr

/-- What `ResultCard` returns when it returns an element: the error box with its message
child, or the card with the class of the action pill, the action and label children, the
`width` of the bar, the score pills and the text of the rationale line when there is
one. -/
inductive View
  | error (message : JSVal)
  | card (className : JSString) (action label : JSVal) (width : JSString)
      (pills : List Pill) (rationale : Option JSString)

/-- The function `actionClass`. -/
def actionClass (action : JSVal) : JSString :=
  if strictEqStr action "Send Normally".toList then "success".toList
  else if strictEqStr action "Quarantine for Review".toList then "warn".toList
  else "danger".toList

/-- The bar's `width`: `Math.round(sensitiveScore*100)` followed by `%`. -/
def barWidth (h : Host) (sensitiveScore : JSNum) : JSString :=
  numberToString h.numberToString (mathRound (sensitiveScore.mul hundred)) ++ ['%']

/-- The text of a pill's `strong` element: `(v*100).toFixed(1)` followed by `%`. -/
def pillValue (h : Host) (v : JSNum) : JSString :=
  toFixed1 h.numberToString (v.mul hundred) ++ ['%']

/-- The pill the `map` callback builds for one entry of `result.scores`. -/
def pill (h : Host) (entry : JSString × JSVal) : Except JSString Pill := do
  let v ← toNumber h entry.2
  pure { key := entry.1, label := entry.1, value := pillValue h v }

/-- The pills: one for each entry of `result.scores`, or of the empty object when that
is falsy. -/
def pills (h : Host) (result : JSVal) : Except JSString (List Pill) :=
  let scores := if truthy (getProp result "scores".toList) then getProp result "scores".toList
    else JSVal.obj []
  (entries scores).mapM (pill h)

/-- The rationale line: `result.rationale.join(', ')` when `result.rationale?.length` is
truthy, nothing otherwise.  Only an array has a `join` method. -/
def rationaleLine (h : Host) (result : JSVal) : Except JSString (Option JSString) :=
  if truthy (getPropOpt (getProp result "rationale".toList) "length".toList) then
    match getProp result "rationale".toList with
    | .arr items => do
      let parts ← items.mapM (elementToString h)
      pure (some (join ", ".toList parts))
    | _ => throw "TypeError: result.rationale.join is not a function".toList
  else pure none

/-- The card `ResultCard` builds once it has ruled out the empty and the error case. -/
def successView (h : Host) (result : JSVal) : Except JSString View := do
  let sensitiveScore :=
    match getProp result "score".toList with
    | .num n => n
    | _ => JSNum.fin false 0 0
  let ps ← pills h result
  let rationale ← rationaleLine h result
  pure (View.card ("pill ".toList ++ actionClass (getProp result "action".toList))
    (getProp result "action".toList) (getProp result "label".toList)
    (barWidth h sensitiveScore) ps rationale)

/-- The component `ResultCard`: `none` is `return null`, an error is an exception thrown
while the element is built. -/
def ResultCard (h : Host) (result : JSVal) : Except JSString (Option View) :=
  if !truthy result then pure none
  else if truthy (getProp result "error".toList) then
    pure (some (View.error (getProp result "error".toList)))
  else do
    let v ← successView h result
    pure (some v)

/-! ## `App.jsx`: the submission controller -/

/-- The two `useState` cells of `App`. -/
structure AppState where
  result : JSVal
  loading : Bool

/-- The state `App` starts in: `useState(null)`, `useState(false)`. -/
def AppState.init : AppState := { result := .null, loading := false }

/-- What `fetch('/api/classify', ...)` followed by `res.json()` can come to: the `fetch`
promise rejects with an error carrying `message`, or it resolves with a response of the
given status whose `json()` promise resolves with the parsed body or rejects with an error
carrying a message. -/
inductive FetchOutcome
  | rejected (message : JSString)
  | response (status : Nat) (json : Except JSString JSVal)

/-- The effects of `classify`, in the order it performs them. -/
inductive Effect
  | setLoading (b : Bool)
  | setResult (v : JSVal)
  | fetch (payload : Payload)

/-- The state after one effect; the request itself leaves the state alone. -/
def Effect.apply : Effect → AppState → AppState
  | .setLoading b, s => { s with loading := b }
  | .setResult v, s => { s with result := v }
  | .fetch _, s => s

/-- The state after a sequence of effects. -/
def applyAll (es : List Effect) (s : AppState) : AppState := es.foldl (fun t e => e.apply t) s

/-- `res.ok`: the status is in the range 200 to 299. -/
def responseOk (status : Nat) : Bool := decide (200 ≤ status ∧ status ≤ 299)

/-- The object literal with the one property `error`. -/
def errorResult (message : JSString) : JSVal := .obj [("error".toList, .str message)]

/-- The part of `classify` that runs before the request settles. -/
def classifyStart (payload : Payload) : List Effect :=
  [.setLoading true, .setResult .null, .fetch payload]

/-- The `try` block of `classify` after the first `await`: the effects it performs or the
message of the error it throws. -/
def tryBlock : FetchOutcome → Except JSString (List Effect)
  | .rejected message => throw message
  | .response status json =>
    if !responseOk status then throw ("HTTP ".toList ++ Nat.toDigits 10 status)
    else
      match json with
      | .error message => throw message
      | .ok data => pure [.setResult data]

/-- The part of `classify` that runs once the request has settled: the `try` block, the
`catch` clause when it threw, the `finally` clause. -/
def classifyFinish (o : FetchOutcome) : List Effect :=
  (match tryBlock o with
    | .ok effects => effects
    | .error message => [.setResult (errorResult message)]) ++ [.setLoading false]

/-- One run of `classify`: all its effects in order, for a request that settles as `o`. -/
def classify (payload : Payload) (o : FetchOutcome) : List Effect :=
  classifyStart payload ++ classifyFinish o

/-- The result a run of `classify` stores when its request settles as `o`. -/
def storedResult (o : FetchOutcome) : JSVal :=
  (applyAll (classifyFinish o) AppState.init).result

/-! ## Interleaved submissions -/

/-- The application with its requests in flight.  `issued` counts the calls of `classify`,
`pending` lists the calls whose request has not settled, `shownBy` records which call wrote
the current `result`, and with which outcome of its request (none after a reset). -/
structure Sys where
  app : AppState
  issued : Nat
  pending : List Nat
  shownBy : Option (Nat × FetchOutcome)

/-- Nothing submitted yet. -/
def Sys.init : Sys := { app := AppState.init, issued := 0, pending := [], shownBy := none }

/-- What happens on the page: the user activates the submit button with the form fields
as given, a `submit` event reaches the form without the button (a script calling
`form.requestSubmit()`), or the request of call `id` settles. -/
inductive Event
  | click (form : FormState)
  | submit (form : FormState)
  | settle (id : Nat) (o : FetchOutcome)

/-- Whether the event is a `submit` event that does not come from the button. -/
def Event.isSubmit : Event → Bool
  | .submit _ => true
  | _ => false

/-- A call of `classify` up to its first `await`. -/
def Sys.call (s : Sys) (payload : Payload) : Sys :=
  { app := applyAll (classifyStart payload) s.app
    issued := s.issued + 1
    pending := s.pending ++ [s.issued]
    shownBy := none }

/-- The continuation of call `id` when its request settles as `o`. -/
def Sys.settle (s : Sys) (id : Nat) (o : FetchOutcome) : Sys :=
  if id ∈ s.pending then
    { app := applyAll (classifyFinish o) s.app
      issued := s.issued
      pending := s.pending.erase id
      shownBy := some (id, o) }
  else s

/-- The form's `onSubmit` handler: `handleSubmit` builds the payload and passes it to
`classify`; it does not look at `loading`. -/
def Sys.onSubmit (s : Sys) (form : FormState) : Sys := s.call (handleSubmit form)

/-- One event.  The button carries `disabled` while `loading`: its activation then does
nothing, and otherwise fires the form's `submit` event; a `submit` event always runs the
handler. -/
def step (s : Sys) : Event → Sys
  | .click form => if s.app.loading then s else s.onSubmit form
  | .submit form => s.onSubmit form
  | .settle id o => s.settle id o

/-- Two submissions with the first request still in flight, the second request settling
first and the first one last. -/
def staleTrace : List Event :=
  [.click ⟨[], [], [], [], []⟩,
   .submit ⟨[], [], [], [], []⟩,
   .settle 1 (.response 200 (.ok (.obj [("label".toList, .str "sensitive".toList)]))),
   .settle 0 (.response 200 (.ok (.obj [("label".toList, .str "normal".toList)])))]

/-! ## The response contract -/

/-- A classification response as the service contract describes it: `label` and `action`
strings, a `score`, an optional mapping `scores` from category names to numbers (its
entries in the mapping's order) and an optional `rationale` list of strings. -/
structure ClassificationResponse where
  label : JSString
  action : JSString
  score : JSNum
  scores : Option (List (JSString × JSNum))
  rationale : Option (List JSString)

/-- The value `res.json()` yields for a response of the contract. -/
def ClassificationResponse.toJS (r : ClassificationResponse) : JSVal :=
  .obj ([("label".toList, JSVal.str r.label), ("action".toList, JSVal.str r.action),
      ("score".toList, JSVal.num r.score)]
    ++ (match r.scores with
        | none => []
        | some m => [("scores".toList, JSVal.obj (m.map (fun kv => (kv.1, JSVal.num kv.2))))])
    ++ (match r.rationale with
        | none => []
        | some l => [("rationale".toList, JSVal.arr (l.map JSVal.str))]))

/-- The entries of `scores`, none when the mapping is absent. -/
def ClassificationResponse.scoreEntries (r : ClassificationResponse) : List (JSString × JSNum) :=
  r.scores.getD []

/-- The rationale line of a response of the contract: its reasons joined by a comma and a
blank, nothing when the list is absent or empty. -/
def ClassificationResponse.rationaleText (r : ClassificationResponse) : Option JSString :=
  match r.rationale with
  | none => none
  | some [] => none
  | some (x :: xs) => some (join ", ".toList (x :: xs))

/-- A finite Number whose value lies in the unit interval. -/
def JSNum.IsProbability (x : JSNum) : Prop :=
  ∃ negative m e, x = .fin negative m e ∧ 0 ≤ x.toRat ∧ x.toRat ≤ 1

/-- A non-negative rational rounded to the nearest tenth, the upper one on a tie, written
with its integer part, a point and exactly one fraction digit. -/
def oneDecimal (q : ℚ) : JSString :=
  let n := (⌊10 * q + 1 / 2⌋).toNat
  Nat.toDigits 10 (n / 10) ++ ['.'] ++ Nat.toDigits 10 (n % 10)

/-- The response of scenario A: label `sensitive`, action `Quarantine for Review`, score
`0.87`, scores `sensitive: 0.87` and `normal: 0.13`, the decimal literals read as the
nearest binary64 values. -/
def scenarioA : ClassificationResponse :=
  { label := "sensitive".toList
    action := "Quarantine for Review".toList
    score := .fin false 7836263351624663 (-53)
    scores := some [("sensitive".toList, .fin false 7836263351624663 (-53)),
      ("normal".toList, .fin false 4683743612465316 (-55))]
    rationale := none }

/-- What holds of every state reached through the submit button alone: while `loading`,
exactly the most recent call is in flight; otherwise none is, and the result on show, if
any call was made, was written by the most recent one. -/
def OneInFlight (s : Sys) : Prop :=
  (s.app.loading = true ∧ s.pending = [s.issued - 1] ∧ 0 < s.issued) ∨
  (s.app.loading = false ∧ s.pending = [] ∧
    (s.issued = 0 ∨ ∃ o, s.shownBy = some (s.issued - 1, o) ∧ s.app.result = storedResult o))

/-- The magnitude `m * 2 ^ e` is at most `c`, without fractions: `m` is zero, or `e` is not
positive and `m ≤ c * 2 ^ (-e)`. -/
def MagnitudeLe (c m : Nat) (e : Int) : Prop :=
  m = 0 ∨ (e ≤ 0 ∧ m ≤ c * 2 ^ (-e).toNat)

/-- A string with no blank at either end. -/
def NoOuterBlank (f : JSString) : Prop :=
  (∀ c, f.head? = some c → isWhiteSpace c = false) ∧
  (∀ c, f.getLast? = some c → isWhiteSpace c = false)

/-! # Properties -/

/-! ## The request builder -/

theorem split_cons_sep (sep : Char) (cs : JSString) :
    split sep (sep :: cs) = [] :: split sep cs := by
  simp [split]

theorem split_exists_cons (sep : Char) (s : JSString) :
    ∃ seg rest, split sep s = seg :: rest := by
  induction s with
  | nil => exact ⟨[], [], rfl⟩
  | cons c cs ih =>
    obtain ⟨seg, rest, h⟩ := ih
    by_cases hc : c = sep
    · exact ⟨[], split sep cs, by simp [split, hc]⟩
    · exact ⟨c :: seg, rest, by simp [split, hc, h]⟩

theorem split_cons_ne {sep c : Char} {cs seg : JSString} {rest : List JSString}
    (hc : c ≠ sep) (h : split sep cs = seg :: rest) :
    split sep (c :: cs) = (c :: seg) :: rest := by
  simp [split, hc, h]

theorem split_of_not_mem {sep : Char} {x : JSString} (hx : sep ∉ x) : split sep x = [x] := by
  induction x with
  | nil => rfl
  | cons c cs ih =>
    have hc : c ≠ sep := fun h => hx (by simp [h])
    have hcs : sep ∉ cs := fun h => hx (by simp [h])
    exact split_cons_ne hc (ih hcs)

theorem split_append_sep {sep : Char} {x : JSString} (r : JSString) (hx : sep ∉ x) :
    split sep (x ++ sep :: r) = x :: split sep r := by
  induction x with
  | nil => simp [split]
  | cons c cs ih =>
    have hc : c ≠ sep := fun h => hx (by simp [h])
    have hcs : sep ∉ cs := fun h => hx (by simp [h])
    exact split_cons_ne hc (ih hcs)

theorem join_split (sep : Char) (s : JSString) : join [sep] (split sep s) = s := by
  induction s with
  | nil => rfl
  | cons c cs ih =>
    obtain ⟨seg, rest, h⟩ := split_exists_cons sep cs
    rw [h] at ih
    by_cases hc : c = sep
    · subst hc
      rw [split_cons_sep, h]
      simp only [join, List.nil_append, List.singleton_append]
      rw [ih]
    · rw [split_cons_ne hc h]
      cases rest with
      | nil =>
        simp only [join] at ih ⊢
        rw [ih]
      | cons y r =>
        simp only [join] at ih ⊢
        rw [← ih]
        simp

theorem mem_of_mem_split {sep : Char} {s seg : JSString} (hseg : seg ∈ split sep s)
    {c : Char} (hc : c ∈ seg) : c ∈ s ∧ c ≠ sep := by
  induction s generalizing seg with
  | nil =>
    simp [split] at hseg
    subst hseg
    simp at hc
  | cons d ds ih =>
    obtain ⟨seg₀, rest, h⟩ := split_exists_cons sep ds
    by_cases hd : d = sep
    · subst hd
      rw [split_cons_sep] at hseg
      rcases List.mem_cons.1 hseg with h0 | h0
      · subst h0; simp at hc
      · have := ih h0 hc
        exact ⟨List.mem_cons_of_mem _ this.1, this.2⟩
    · rw [split_cons_ne hd h] at hseg
      rcases List.mem_cons.1 hseg with h0 | h0
      · subst h0
        rcases List.mem_cons.1 hc with h1 | h1
        · subst h1; exact ⟨List.mem_cons_self _ _, hd⟩
        · have := @ih seg₀ (by rw [h]; exact List.mem_cons_self _ _) h1
          exact ⟨List.mem_cons_of_mem _ this.1, this.2⟩
      · have := @ih seg (by rw [h]; exact List.mem_cons_of_mem _ h0) hc
        exact ⟨List.mem_cons_of_mem _ this.1, this.2⟩

theorem trim_subset {x : JSString} {c : Char} (hc : c ∈ trim x) : c ∈ x :=
  (List.dropWhile_suffix _).subset ((List.rdropWhile_prefix _ _).subset hc)

theorem trim_noOuterBlank (x : JSString) : NoOuterBlank (trim x) := by
  constructor
  · intro c hc
    have hne : trim x ≠ [] := by intro h; rw [h] at hc; simp at hc
    have hpre : trim x <+: trimStart x := List.rdropWhile_prefix _ _
    have hne' : trimStart x ≠ [] := by
      intro h; rw [h] at hpre; exact hne (List.prefix_nil.1 hpre)
    have hhead : (trim x).head hne = (trimStart x).head hne' := hpre.head hne
    have hnot := List.head_dropWhile_not isWhiteSpace x hne'
    rw [List.head?_eq_head hne] at hc
    have : c = (trimStart x).head hne' := by
      rw [← hhead]; exact (Option.some.inj hc).symm
    rw [this]
    simpa [trimStart] using hnot
  · intro c hc
    have hne : trim x ≠ [] := by intro h; rw [h] at hc; simp at hc
    have hnot := List.rdropWhile_last_not (p := isWhiteSpace) (l := trimStart x) hne
    rw [List.getLast?_eq_getLast _ hne] at hc
    have : c = (trim x).getLast hne := (Option.some.inj hc).symm
    rw [this]
    simpa [trim, trimEnd] using hnot

theorem trimStart_of_noOuterBlank {f : JSString} (hf : NoOuterBlank f) : trimStart f = f := by
  cases f with
  | nil => rfl
  | cons c cs =>
    have := hf.1 c rfl
    simp [trimStart, List.dropWhile, this]

theorem trimEnd_of_noOuterBlank {f : JSString} (hf : NoOuterBlank f) : trimEnd f = f := by
  unfold trimEnd
  rw [List.rdropWhile_eq_self_iff]
  intro hl
  have := hf.2 (f.getLast hl) (List.getLast?_eq_getLast _ hl)
  simp [this]

theorem trim_of_noOuterBlank {f : JSString} (hf : NoOuterBlank f) : trim f = f := by
  unfold trim
  rw [trimStart_of_noOuterBlank hf, trimEnd_of_noOuterBlank hf]

theorem trim_blank_append {w f : JSString} (hw : ∀ c ∈ w, isWhiteSpace c = true)
    (hf : NoOuterBlank f) : trim (w ++ f) = f := by
  unfold trim trimStart
  rw [List.dropWhile_append_of_pos hw]
  exact trim_of_noOuterBlank hf

theorem trim_eq_nil_of_blank {x : JSString} (hx : ∀ c ∈ x, isWhiteSpace c = true) :
    trim x = [] := by
  unfold trim trimStart
  rw [List.dropWhile_eq_nil_iff.2 hx]
  rfl

theorem attachmentsOf_eq_map (s : JSString) :
    attachmentsOf s = (((split ',' s).map trim).filter (fun seg => strTruthy seg)).map
      Attachment.mk := by
  unfold attachmentsOf
  by_cases hs : strTruthy s = true
  · rw [if_pos hs]
    simp [List.filter_map, List.map_map, Function.comp_def]
  · have : s = [] := by
      cases s with
      | nil => rfl
      | cons c cs => simp [strTruthy] at hs
    subst this
    rfl

theorem strTruthy_iff (s : JSString) : strTruthy s = true ↔ s ≠ [] := by
  cases s <;> simp [strTruthy]

theorem mem_filenames {s f : JSString} (hf : f ∈ filenames (attachmentsOf s)) :
    ∃ seg ∈ split ',' s, f = trim seg ∧ f ≠ [] := by
  rw [attachmentsOf_eq_map, filenames, List.map_map] at hf
  have hid : (Attachment.filename ∘ Attachment.mk) = id := rfl
  rw [hid, List.map_id, List.mem_filter, List.mem_map] at hf
  obtain ⟨⟨seg, hseg, rfl⟩, hne⟩ := hf
  exact ⟨seg, hseg, rfl, (strTruthy_iff _).1 hne⟩

theorem comma_not_blank {c : Char} (hc : isWhiteSpace c = true) : c ≠ ',' := by
  rintro rfl
  exact absurd hc (by decide)

theorem split_join_trim (w : JSString) (hw : ∀ c ∈ w, isWhiteSpace c = true) :
    ∀ (fs : List JSString) (pre : JSString), fs ≠ [] →
      (∀ c ∈ pre, isWhiteSpace c = true) →
      (∀ f ∈ fs, ',' ∉ f ∧ NoOuterBlank f) →
      (split ',' (pre ++ join (',' :: w) fs)).map trim = fs := by
  intro fs
  induction fs with
  | nil => intro _ h; exact absurd rfl h
  | cons f rest ih =>
    intro pre _ hpre hfs
    have hf := hfs f (List.mem_cons_self _ _)
    have hno : ',' ∉ pre ++ f := by
      intro h
      rcases List.mem_append.1 h with h | h
      · exact comma_not_blank (hpre _ h) rfl
      · exact hf.1 h
    cases rest with
    | nil =>
      simp only [join]
      rw [split_of_not_mem hno]
      simp [trim_blank_append hpre hf.2]
    | cons g rest' =>
      have hrest : ∀ f ∈ g :: rest', ',' ∉ f ∧ NoOuterBlank f :=
        fun x hx => hfs x (List.mem_cons_of_mem _ hx)
      have hshape : pre ++ join (',' :: w) (f :: g :: rest') =
          (pre ++ f) ++ ',' :: (w ++ join (',' :: w) (g :: rest')) := by
        simp [join]
      rw [hshape, split_append_sep _ hno, List.map_cons, trim_blank_append hpre hf.2,
        ih w (by simp) hw hrest]

theorem join_ne_nil {sep f : JSString} {rest : List JSString} (hf : f ≠ []) :
    join sep (f :: rest) ≠ [] := by
  cases rest with
  | nil => simpa [join] using hf
  | cons g rest' => simp [join, hf]

theorem attachmentsOf_join (w : JSString) (hw : ∀ c ∈ w, isWhiteSpace c = true)
    (fs : List JSString) (hfs : ∀ f ∈ fs, ',' ∉ f ∧ NoOuterBlank f ∧ f ≠ []) :
    attachmentsOf (join (',' :: w) fs) = fs.map Attachment.mk := by
  cases fs with
  | nil => rfl
  | cons f rest =>
    have h := split_join_trim w hw (f :: rest) [] (by simp) (by simp)
      (fun x hx => ⟨(hfs x hx).1, (hfs x hx).2.1⟩)
    rw [attachmentsOf_eq_map]
    rw [List.nil_append] at h
    rw [h, List.filter_eq_self.2 (fun x hx => (strTruthy_iff x).2 (hfs x hx).2.2)]

theorem filenames_good (s : JSString) :
    ∀ f ∈ filenames (attachmentsOf s), ',' ∉ f ∧ NoOuterBlank f ∧ f ≠ [] := by
  intro f hf
  obtain ⟨seg, hseg, rfl, hne⟩ := mem_filenames hf
  refine ⟨fun h => (mem_of_mem_split hseg (trim_subset h)).2 rfl, trim_noOuterBlank seg, hne⟩

theorem map_mk_filenames (as : List Attachment) : (filenames as).map Attachment.mk = as := by
  induction as with
  | nil => rfl
  | cons a rest ih => simpa [filenames] using ih

/-- C1. For every state of the form, the `attachments` of the payload `handleSubmit` builds
are the attachments CSV split on commas, each segment trimmed, the segments empty after
trimming discarded and the others wrapped as `filename` entries, in their order; the
segments are the comma-free pieces that, joined by commas, give the CSV back.  So every
filename is non-empty, and a CSV of blanks and commas only gives the empty list. -/
theorem handleSubmit_attachments (f : FormState) :
    (handleSubmit f).attachments = specAttachments f.attachments ∧
    (join [','] (split ',' f.attachments) = f.attachments ∧
      ∀ seg ∈ split ',' f.attachments, ',' ∉ seg) ∧
    (∀ a ∈ (handleSubmit f).attachments, a.filename ≠ []) ∧
    ((∀ c ∈ f.attachments, c = ',' ∨ isWhiteSpace c = true) →
      (handleSubmit f).attachments = []) := by
  have hspec : attachmentsOf f.attachments = specAttachments f.attachments := by
    rw [attachmentsOf_eq_map]
    unfold specAttachments
    congr 1
    apply List.filter_congr
    intro x _
    cases x <;> simp [strTruthy]
  refine ⟨hspec, ⟨join_split ',' f.attachments,
    fun seg hseg hc => (mem_of_mem_split hseg hc).2 rfl⟩, ?_, ?_⟩
  · intro a ha
    exact (filenames_good f.attachments a.filename (List.mem_map_of_mem _ ha)).2.2
  · intro hall
    show attachmentsOf f.attachments = []
    rw [attachmentsOf_eq_map, List.map_eq_nil_iff, List.filter_eq_nil_iff]
    intro x hx
    obtain ⟨seg, hseg, rfl⟩ := List.mem_map.1 hx
    have : trim seg = [] := by
      apply trim_eq_nil_of_blank
      intro c hc
      have hmem := mem_of_mem_split hseg hc
      rcases hall c hmem.1 with h | h
      · exact absurd h hmem.2
      · exact h
    simp [this, strTruthy]

/-- C1 at the inputs of scenario B: `"example.xlsx, data.csv"` gives the two filenames in
order, and `" , , "`, made of blanks and commas only, gives the empty list. -/
theorem handleSubmit_attachments_witness :
    (handleSubmit ⟨[], [], [], [], "example.xlsx, data.csv".toList⟩).attachments =
      [⟨"example.xlsx".toList⟩, ⟨"data.csv".toList⟩] ∧
    (handleSubmit ⟨[], [], [], [], " , , ".toList⟩).attachments = [] :=
  ⟨by decide,
   (handleSubmit_attachments ⟨[], [], [], [], " , , ".toList⟩).2.2.2 (by decide)⟩

/-- C10. The filenames `handleSubmit` produces contain no comma and have no blank at
either end, and joining them with `,` or with `, ` and parsing the result again gives the
same attachments. -/
theorem attachments_reparse (s : JSString) :
    (∀ f ∈ filenames (attachmentsOf s), ',' ∉ f ∧ NoOuterBlank f) ∧
    attachmentsOf (join ",".toList (filenames (attachmentsOf s))) = attachmentsOf s ∧
    attachmentsOf (join ", ".toList (filenames (attachmentsOf s))) = attachmentsOf s := by
  refine ⟨fun f hf => ⟨(filenames_good s f hf).1, (filenames_good s f hf).2.1⟩, ?_, ?_⟩
  · have := attachmentsOf_join [] (by simp) _ (filenames_good s)
    rw [map_mk_filenames] at this
    exact this
  · have := attachmentsOf_join [' '] (by decide) _ (filenames_good s)
    rw [map_mk_filenames] at this
    exact this

/-! ## The result card and the submission controller -/

theorem mapM_pill_nums (h : Host) (m : List (JSString × JSNum)) :
    (m.map (fun kv => (kv.1, JSVal.num kv.2))).mapM (pill h) =
      Except.ok (m.map (fun kv => Pill.mk kv.1 kv.1 (pillValue h kv.2))) := by
  induction m with
  | nil => rfl
  | cons kv rest ih =>
    rw [List.map_cons, List.mapM_cons, ih]
    rfl

theorem mapM_elementToString_strs (h : Host) (l : List JSString) :
    (l.map JSVal.str).mapM (elementToString h) = Except.ok l := by
  induction l with
  | nil => rfl
  | cons x rest ih =>
    rw [List.map_cons, List.mapM_cons, ih]
    rfl

theorem pills_toJS (h : Host) (r : ClassificationResponse) :
    pills h r.toJS =
      Except.ok (r.scoreEntries.map (fun kv => Pill.mk kv.1 kv.1 (pillValue h kv.2))) := by
  cases hs : r.scores with
  | none =>
    cases hr : r.rationale <;>
      simp [pills, ClassificationResponse.toJS, ClassificationResponse.scoreEntries, hs, hr,
        getProp, lookup, truthy, entries] <;> rfl
  | some m =>
    cases hr : r.rationale <;>
      simp [pills, ClassificationResponse.toJS, ClassificationResponse.scoreEntries, hs, hr,
        getProp, lookup, truthy, entries] <;> exact mapM_pill_nums h m

theorem rationaleLine_toJS (h : Host) (r : ClassificationResponse) :
    rationaleLine h r.toJS = Except.ok r.rationaleText := by
  cases hs : r.scores <;> cases hr : r.rationale with
  | none =>
    simp [rationaleLine, ClassificationResponse.toJS, ClassificationResponse.rationaleText, hs,
      hr, getProp, getPropOpt, lookup, truthy]
    rfl
  | some l =>
    cases l with
    | nil =>
      simp [rationaleLine, ClassificationResponse.toJS, ClassificationResponse.rationaleText,
        hs, hr, getProp, getPropOpt, lookup, truthy, numTruthy]
      rfl
    | cons x xs =>
      simp [rationaleLine, ClassificationResponse.toJS, ClassificationResponse.rationaleText,
        hs, hr, getProp, getPropOpt, lookup, truthy, numTruthy]
      all_goals
        have := mapM_elementToString_strs h (x :: xs)
        simp only [List.map_cons, List.mapM] at this
        rw [this]
        rfl

theorem getProp_toJS (r : ClassificationResponse) :
    getProp r.toJS "error".toList = .undefined ∧
    getProp r.toJS "action".toList = .str r.action ∧
    getProp r.toJS "label".toList = .str r.label ∧
    getProp r.toJS "score".toList = .num r.score := by
  cases hs : r.scores <;> cases hr : r.rationale <;>
    simp [ClassificationResponse.toJS, hs, hr, getProp, lookup]

theorem successView_toJS (h : Host) (r : ClassificationResponse) :
    successView h r.toJS =
      Except.ok (View.card ("pill ".toList ++ actionClass (.str r.action)) (.str r.action)
        (.str r.label) (barWidth h r.score)
        (r.scoreEntries.map (fun kv => Pill.mk kv.1 kv.1 (pillValue h kv.2)))
        r.rationaleText) := by
  obtain ⟨_, ha, hl, hsc⟩ := getProp_toJS r
  unfold successView
  rw [pills_toJS, rationaleLine_toJS, ha, hl, hsc]
  rfl

theorem ResultCard_toJS (h : Host) (r : ClassificationResponse) :
    ResultCard h r.toJS =
      Except.ok (some (View.card ("pill ".toList ++ actionClass (.str r.action))
        (.str r.action) (.str r.label) (barWidth h r.score)
        (r.scoreEntries.map (fun kv => Pill.mk kv.1 kv.1 (pillValue h kv.2)))
        r.rationaleText)) := by
  have he := (getProp_toJS r).1
  have ht : truthy r.toJS = true := rfl
  unfold ResultCard
  rw [ht, he, successView_toJS]
  rfl

theorem actionClass_cases (a : JSVal) :
    (a = .str "Send Normally".toList ∧ actionClass a = "success".toList) ∨
    (a = .str "Quarantine for Review".toList ∧ actionClass a = "warn".toList) ∨
    (a ≠ .str "Send Normally".toList ∧ a ≠ .str "Quarantine for Review".toList ∧
      actionClass a = "danger".toList) := by
  cases a with
  | str s =>
    by_cases h1 : s = "Send Normally".toList
    · exact Or.inl ⟨by rw [h1], by rw [h1]; decide⟩
    · by_cases h2 : s = "Quarantine for Review".toList
      · exact Or.inr (Or.inl ⟨by rw [h2], by rw [h2]; decide⟩)
      · refine Or.inr (Or.inr ⟨fun h => h1 (JSVal.str.inj h), fun h => h2 (JSVal.str.inj h), ?_⟩)
        simp only [actionClass, strictEqStr, decide_eq_false h1, decide_eq_false h2]
        rfl
  | undefined => exact Or.inr (Or.inr ⟨by simp, by simp, rfl⟩)
  | null => exact Or.inr (Or.inr ⟨by simp, by simp, rfl⟩)
  | bool b => exact Or.inr (Or.inr ⟨by simp, by simp, rfl⟩)
  | num n => exact Or.inr (Or.inr ⟨by simp, by simp, rfl⟩)
  | arr l => exact Or.inr (Or.inr ⟨by simp, by simp, rfl⟩)
  | obj l => exact Or.inr (Or.inr ⟨by simp, by simp, rfl⟩)

/-- C2. `actionClass` is `success` exactly for the string `Send Normally`, `warn` exactly for
the string `Quarantine for Review` and `danger` for every other value, a missing action
included: no other value is ever classed as benign. -/
theorem actionClass_tiers (a : JSVal) :
    (actionClass a = "success".toList ↔ a = .str "Send Normally".toList) ∧
    (actionClass a = "warn".toList ↔ a = .str "Quarantine for Review".toList) ∧
    (actionClass a = "danger".toList ↔
      (a ≠ .str "Send Normally".toList ∧ a ≠ .str "Quarantine for Review".toList)) ∧
    actionClass .undefined = "danger".toList ∧
    actionClass .null = "danger".toList ∧
    actionClass (.str []) = "danger".toList ∧
    actionClass (.str "Block".toList) = "danger".toList ∧
    actionClass (.str "UNKNOWN".toList) = "danger".toList ∧
    actionClass (.str "send normally".toList) = "danger".toList ∧
    actionClass (.str "Send Normally ".toList) = "danger".toList ∧
    actionClass (.str " Quarantine for Review".toList) = "danger".toList := by
  have hsw : "success".toList ≠ "warn".toList := by decide
  have hsd : "success".toList ≠ "danger".toList := by decide
  have hwd : "warn".toList ≠ "danger".toList := by decide
  have hne : JSVal.str "Send Normally".toList ≠ .str "Quarantine for Review".toList :=
    fun h => absurd (JSVal.str.inj h) (by decide)
  refine ⟨?_, ?_, ?_, by decide, by decide, by decide, by decide, by decide, by decide,
    by decide, by decide⟩
  · rcases actionClass_cases a with ⟨h, hc⟩ | ⟨h, hc⟩ | ⟨h1, h2, hc⟩
    · exact ⟨fun _ => h, fun _ => hc⟩
    · exact ⟨fun e => absurd (hc.symm.trans e) hsw.symm, fun e => absurd (h.symm.trans e) hne.symm⟩
    · exact ⟨fun e => absurd (hc.symm.trans e) hsd.symm, fun e => absurd e h1⟩
  · rcases actionClass_cases a with ⟨h, hc⟩ | ⟨h, hc⟩ | ⟨h1, h2, hc⟩
    · exact ⟨fun e => absurd (hc.symm.trans e) hsw, fun e => absurd (h.symm.trans e) hne⟩
    · exact ⟨fun _ => h, fun _ => hc⟩
    · exact ⟨fun e => absurd (hc.symm.trans e) hwd.symm, fun e => absurd e h2⟩
  · rcases actionClass_cases a with ⟨h, hc⟩ | ⟨h, hc⟩ | ⟨h1, h2, hc⟩
    · exact ⟨fun e => absurd (hc.symm.trans e) hsd, fun e => absurd h e.1⟩
    · exact ⟨fun e => absurd (hc.symm.trans e) hwd, fun e => absurd h e.2⟩
    · exact ⟨fun _ => ⟨h1, h2⟩, fun _ => hc⟩

theorem ResultCard_of_success_branch (h : Host) (b : JSVal) (hb : truthy b = true)
    (he : truthy (getProp b "error".toList) = false) :
    ResultCard h b = (successView h b).map some := by
  unfold ResultCard
  rw [hb, he]
  cases successView h b <;> rfl

theorem classify_ok (p : Payload) (status : Nat) (data : JSVal)
    (hs : responseOk status = true) :
    classify p (.response status (.ok data)) =
      [.setLoading true, .setResult .null, .fetch p, .setResult data, .setLoading false] := by
  simp only [classify, classifyFinish, tryBlock, hs]
  rfl

theorem classify_parse_error (p : Payload) (status : Nat) (m : JSString)
    (hs : responseOk status = true) :
    classify p (.response status (.error m)) =
      [.setLoading true, .setResult .null, .fetch p, .setResult (errorResult m),
        .setLoading false] := by
  simp only [classify, classifyFinish, tryBlock, hs]
  rfl

theorem classify_not_ok (p : Payload) (status : Nat) (json : Except JSString JSVal)
    (hs : responseOk status = false) :
    classify p (.response status json) =
      [.setLoading true, .setResult .null, .fetch p,
        .setResult (errorResult ("HTTP ".toList ++ Nat.toDigits 10 status)),
        .setLoading false] := by
  simp only [classify, classifyFinish, tryBlock, hs]
  rfl

/-- C3. What `ResultCard` makes of the state `classify` stores for a failure with message
`m`: the error box with `m` as its text when `m` is not empty; for the empty message the
stored object has a falsy `error`, and `ResultCard` builds the card of a response without
any field instead of the error box. -/
theorem ResultCard_failure (h : Host) (p : Payload) (s : AppState) :
    (∀ m : JSString, (applyAll (classify p (.rejected m)) s).result = errorResult m) ∧
    (∀ m : JSString, m ≠ [] →
      ResultCard h (errorResult m) = .ok (some (View.error (.str m)))) ∧
    ResultCard h (errorResult []) =
      .ok (some (View.card "pill danger".toList .undefined .undefined "0%".toList [] none)) := by
  refine ⟨fun m => rfl, ?_, rfl⟩
  intro m hm
  have ht : truthy (getProp (errorResult m) "error".toList) = true := by
    cases m with
    | nil => exact absurd rfl hm
    | cons c cs => rfl
  unfold ResultCard
  rw [ht]
  rfl

/-- C4, refuted as stated: a body `null` received with status 200 leaves the application in
its initial state, for which `ResultCard` renders nothing, and a body with an `error`
property is stored and rendered exactly as the failure with that message is. -/
theorem success_body_not_distinguished :
    applyAll (classify (handleSubmit ⟨[], [], [], [], []⟩) (.response 200 (.ok .null)))
        AppState.init = AppState.init ∧
    (∀ h : Host, ResultCard h (applyAll (classify (handleSubmit ⟨[], [], [], [], []⟩)
        (.response 200 (.ok .null))) AppState.init).result = .ok none) ∧
    applyAll (classify (handleSubmit ⟨[], [], [], [], []⟩)
        (.response 200 (.ok (.obj [("error".toList, .str "boom".toList)])))) AppState.init =
      applyAll (classify (handleSubmit ⟨[], [], [], [], []⟩) (.rejected "boom".toList))
        AppState.init ∧
    (∀ h : Host, ResultCard h (applyAll (classify (handleSubmit ⟨[], [], [], [], []⟩)
        (.response 200 (.ok (.obj [("error".toList, .str "boom".toList)])))) AppState.init).result
      = .ok (some (View.error (.str "boom".toList)))) :=
  ⟨rfl, fun _ => rfl, rfl, fun _ => rfl⟩

/-- C4, amended. For every response with a success status whose parsed body `b` is truthy
and has no truthy `error` property, `classify` ends with `b` stored and `loading` false, and
`ResultCard` takes its success branch on `b`: it renders neither nothing nor an error box.
Every response `r` of the contract is such a body, and for it `ResultCard` returns the card
of `r`. -/
theorem success_body_rendered (h : Host) (p : Payload) (s : AppState) (status : Nat)
    (b : JSVal) (hok : responseOk status = true) (hb : truthy b = true)
    (he : truthy (getProp b "error".toList) = false) :
    applyAll (classify p (.response status (.ok b))) s = { result := b, loading := false } ∧
    ResultCard h b = (successView h b).map some ∧
    ResultCard h b ≠ .ok none ∧
    (∀ m, ResultCard h b ≠ .ok (some (View.error m))) ∧
    (∀ r : ClassificationResponse, b = r.toJS →
      ResultCard h b = .ok (some (View.card ("pill ".toList ++ actionClass (.str r.action))
        (.str r.action) (.str r.label) (barWidth h r.score)
        (r.scoreEntries.map (fun kv => Pill.mk kv.1 kv.1 (pillValue h kv.2)))
        r.rationaleText))) := by
  have hbranch := ResultCard_of_success_branch h b hb he
  refine ⟨?_, hbranch, ?_, ?_, ?_⟩
  · rw [classify_ok p status b hok]
    rfl
  · rw [hbranch]
    cases successView h b <;> simp [Except.map]
  · intro m
    rw [hbranch]
    unfold successView
    cases pills h b with
    | error e => simp [Except.map, bind, Except.bind]
    | ok ps =>
      cases rationaleLine h b with
      | error e => simp [Except.map, bind, Except.bind]
      | ok ra => simp [Except.map, bind, Except.bind, pure, Except.pure]
  · intro r hr
    rw [hr]
    exact ResultCard_toJS h r

/-- C4 at the response of scenario A received with status 200: the body is truthy and has
no `error` property, it is stored, and the card rendered for it is neither nothing nor an
error box. -/
theorem success_body_rendered_witness :
    responseOk 200 = true ∧ truthy scenarioA.toJS = true ∧
    truthy (getProp scenarioA.toJS "error".toList) = false ∧
    applyAll (classify (handleSubmit ⟨[], [], [], [], []⟩) (.response 200 (.ok scenarioA.toJS)))
        AppState.init = { result := scenarioA.toJS, loading := false } ∧
    (∀ h : Host, ResultCard h scenarioA.toJS ≠ .ok none) ∧
    (∀ (h : Host) (m : JSVal), ResultCard h scenarioA.toJS ≠ .ok (some (View.error m))) :=
  ⟨by decide, rfl, rfl,
   (success_body_rendered ⟨fun _ => [], fun _ => .error [], fun _ => .error []⟩ _
      AppState.init 200 scenarioA.toJS (by decide) rfl rfl).1,
   fun h => (success_body_rendered h (handleSubmit ⟨[], [], [], [], []⟩) AppState.init 200
      scenarioA.toJS (by decide) rfl rfl).2.2.1,
   fun h => (success_body_rendered h (handleSubmit ⟨[], [], [], [], []⟩) AppState.init 200
      scenarioA.toJS (by decide) rfl rfl).2.2.2.1⟩

/-- C5. For a response whose status is not in the success range, `classify` stores the
failure `HTTP` followed by the status, whatever `res.json()` would have given. -/
theorem classify_http_error (p : Payload) (s : AppState) (status : Nat)
    (json json' : Except JSString JSVal) (hs : responseOk status = false) :
    classify p (.response status json) =
      [.setLoading true, .setResult .null, .fetch p,
        .setResult (errorResult ("HTTP ".toList ++ Nat.toDigits 10 status)),
        .setLoading false] ∧
    applyAll (classify p (.response status json)) s =
      { result := errorResult ("HTTP ".toList ++ Nat.toDigits 10 status), loading := false } ∧
    classify p (.response status json) = classify p (.response status json') := by
  have hc := fun j => classify_not_ok p status j hs
  refine ⟨hc json, ?_, (hc json).trans (hc json').symm⟩
  rw [hc json]
  rfl

/-- C5 at status 500 (scenario C): the failure is `HTTP 500`, for a JSON body, for a body
that does not parse and regardless of which. -/
theorem classify_http_error_witness :
    responseOk 500 = false ∧
    applyAll (classify (handleSubmit ⟨[], [], [], [], []⟩)
        (.response 500 (.ok (.obj [("label".toList, .str "normal".toList)])))) AppState.init =
      { result := errorResult "HTTP 500".toList, loading := false } ∧
    classify (handleSubmit ⟨[], [], [], [], []⟩)
        (.response 500 (.ok (.obj [("label".toList, .str "normal".toList)]))) =
      classify (handleSubmit ⟨[], [], [], [], []⟩)
        (.response 500 (.error "Unexpected end of JSON input".toList)) :=
  ⟨by decide,
   (classify_http_error _ AppState.init 500 _ (.error []) (by decide)).2.1,
   (classify_http_error _ AppState.init 500 _ _ (by decide)).2.2⟩

/-- C7. Whatever the request comes to, one run of `classify` sets `loading` to true and
`result` to `null`, issues one request with the payload, stores one result and sets
`loading` to false once, in this order; afterwards `loading` is false and the result is the
body of a success response or a failure object. -/
theorem classify_loading_once (p : Payload) (o : FetchOutcome) (s : AppState) :
    ∃ r, classify p o =
        [.setLoading true, .setResult .null, .fetch p, .setResult r, .setLoading false] ∧
      applyAll (classifyStart p) s = { result := .null, loading := true } ∧
      applyAll (classify p o) s = { result := r, loading := false } ∧
      ((∃ status data, o = .response status (.ok data) ∧ responseOk status = true ∧ r = data) ∨
        (∃ m, r = errorResult m)) := by
  cases o with
  | rejected m =>
    exact ⟨errorResult m, rfl, rfl, rfl, Or.inr ⟨m, rfl⟩⟩
  | response status json =>
    by_cases hs : responseOk status = true
    · cases json with
      | error m =>
        refine ⟨errorResult m, classify_parse_error p status m hs, rfl, ?_, Or.inr ⟨m, rfl⟩⟩
        rw [classify_parse_error p status m hs]
        rfl
      | ok data =>
        refine ⟨data, classify_ok p status data hs, rfl, ?_,
          Or.inl ⟨status, data, rfl, hs, rfl⟩⟩
        rw [classify_ok p status data hs]
        rfl
    · have hs' : responseOk status = false := by simpa using hs
      refine ⟨_, classify_not_ok p status json hs', rfl, ?_, Or.inr ⟨_, rfl⟩⟩
      rw [classify_not_ok p status json hs']
      rfl

/-! ## Interleaved submissions -/

theorem classifyFinish_loading (o : FetchOutcome) (a : AppState) :
    (applyAll (classifyFinish o) a).loading = false := by
  unfold classifyFinish applyAll
  rw [List.foldl_append]
  rfl

theorem classifyFinish_shape (o : FetchOutcome) :
    ∃ r, classifyFinish o = [.setResult r, .setLoading false] := by
  cases o with
  | rejected m => exact ⟨errorResult m, rfl⟩
  | response status json =>
    by_cases hs : responseOk status = true
    · cases json with
      | error m => exact ⟨errorResult m, by simp only [classifyFinish, tryBlock, hs]; rfl⟩
      | ok data => exact ⟨data, by simp only [classifyFinish, tryBlock, hs]; rfl⟩
    · have hs' : responseOk status = false := by simpa using hs
      exact ⟨_, by simp only [classifyFinish, tryBlock, hs']; rfl⟩

theorem classifyFinish_result (o : FetchOutcome) (a : AppState) :
    (applyAll (classifyFinish o) a).result = storedResult o := by
  obtain ⟨r, hr⟩ := classifyFinish_shape o
  unfold storedResult
  rw [hr]
  rfl

theorem oneInFlight_init : OneInFlight Sys.init :=
  Or.inr ⟨rfl, rfl, Or.inl rfl⟩

theorem oneInFlight_step (s : Sys) (e : Event) (he : e.isSubmit = false)
    (hs : OneInFlight s) : OneInFlight (step s e) := by
  cases e with
  | submit form => exact absurd he (by simp [Event.isSubmit])
  | click form =>
    rcases hs with ⟨hl, hp, hi⟩ | ⟨hl, hp, hi⟩
    · have : step s (.click form) = s := by simp [step, hl]
      rw [this]
      exact Or.inl ⟨hl, hp, hi⟩
    · have : step s (.click form) = s.call (handleSubmit form) := by
        simp [step, Sys.onSubmit, hl]
      rw [this]
      refine Or.inl ⟨rfl, ?_, Nat.succ_pos _⟩
      simp [Sys.call, hp]
  | settle id o =>
    rcases hs with ⟨hl, hp, hi⟩ | ⟨hl, hp, hi⟩
    · by_cases hid : id = s.issued - 1
      · have hmem : id ∈ s.pending := by rw [hp, hid]; exact List.mem_singleton_self _
        have : step s (.settle id o) =
            { app := applyAll (classifyFinish o) s.app, issued := s.issued,
              pending := s.pending.erase id, shownBy := some (id, o) } := by
          simp [step, Sys.settle, hmem]
        rw [this]
        refine Or.inr ⟨classifyFinish_loading o s.app, ?_, Or.inr ?_⟩
        · simp [hp, hid]
        · exact ⟨o, by simp [hid], classifyFinish_result o s.app⟩
      · have hmem : id ∉ s.pending := by rw [hp]; simpa using hid
        have : step s (.settle id o) = s := by simp [step, Sys.settle, hmem]
        rw [this]
        exact Or.inl ⟨hl, hp, hi⟩
    · have hmem : id ∉ s.pending := by rw [hp]; simp
      have : step s (.settle id o) = s := by simp [step, Sys.settle, hmem]
      rw [this]
      exact Or.inr ⟨hl, hp, hi⟩

theorem oneInFlight_run (es : List Event) :
    ∀ s, (∀ e ∈ es, e.isSubmit = false) → OneInFlight s → OneInFlight (es.foldl step s) := by
  induction es with
  | nil => intro s _ hs; exact hs
  | cons e rest ih =>
    intro s hes hs
    exact ih _ (fun x hx => hes x (List.mem_cons_of_mem _ hx))
      (oneInFlight_step s e (hes e (List.mem_cons_self _ _)) hs)

theorem button_last_submission_wins (es : List Event)
    (hes : ∀ e ∈ es, e.isSubmit = false) :
    (es.foldl step Sys.init).pending.length ≤ 1 ∧
    ((es.foldl step Sys.init).app.loading = true ↔ (es.foldl step Sys.init).pending ≠ []) ∧
    ((es.foldl step Sys.init).pending = [] → 0 < (es.foldl step Sys.init).issued →
      ∃ o, (es.foldl step Sys.init).shownBy = some ((es.foldl step Sys.init).issued - 1, o) ∧
        (es.foldl step Sys.init).app.result = storedResult o) := by
  have hinv := oneInFlight_run es Sys.init hes oneInFlight_init
  refine ⟨?_, ?_, ?_⟩
  · rcases hinv with ⟨_, hp, _⟩ | ⟨_, hp, _⟩ <;> simp [hp]
  · rcases hinv with ⟨hl, hp, _⟩ | ⟨hl, hp, _⟩ <;> simp [hl, hp]
  · intro hp0 hpos
    rcases hinv with ⟨_, hp, _⟩ | ⟨_, _, hi⟩
    · rw [hp] at hp0; exact absurd hp0 (by simp)
    · rcases hi with hi | hi
      · omega
      · exact hi

/-- C6. Last-submission-wins does not hold of the code.  `handleSubmit` passes every
`submit` event on to `classify`, which keeps no record of which call is the latest; only
the button is disabled while `loading`.  A `submit` event that arrives while the first
request is in flight starts a second one (where a second activation of the button starts
none); when the second request settles first and the first one last, the result finally
on show is the one written by the first, superseded call.  Through the button alone at
most one request is ever in flight, and once none is the result on show was written by
the most recently issued call. -/
theorem stale_response_overwrites :
    ([Event.click ⟨[], [], [], [], []⟩, Event.click ⟨[], [], [], [], []⟩].foldl step
      Sys.init).pending = [0] ∧
    ([Event.click ⟨[], [], [], [], []⟩, Event.submit ⟨[], [], [], [], []⟩].foldl step
      Sys.init).pending = [0, 1] ∧
    (staleTrace.foldl step Sys.init).pending = [] ∧
    (staleTrace.foldl step Sys.init).issued = 2 ∧
    (staleTrace.foldl step Sys.init).app.loading = false ∧
    (staleTrace.foldl step Sys.init).shownBy.map Prod.fst = some 0 ∧
    (staleTrace.foldl step Sys.init).app.result =
      .obj [("label".toList, .str "normal".toList)] ∧
    (∀ es : List Event, (∀ e ∈ es, e.isSubmit = false) →
      (es.foldl step Sys.init).pending.length ≤ 1 ∧
      ((es.foldl step Sys.init).pending = [] → 0 < (es.foldl step Sys.init).issued →
        ∃ o, (es.foldl step Sys.init).shownBy =
            some ((es.foldl step Sys.init).issued - 1, o) ∧
          (es.foldl step Sys.init).app.result = storedResult o)) :=
  ⟨rfl, rfl, rfl, rfl, rfl, rfl, rfl,
   fun es hes => ⟨(button_last_submission_wins es hes).1,
     (button_last_submission_wins es hes).2.2⟩⟩

/-! ## Numbers: the bar width and the score pills -/

theorem bitLengthAux_le (fuel : Nat) : ∀ n j, n < 2 ^ j → bitLengthAux fuel n ≤ j := by
  induction fuel with
  | zero => intro n j _; simp [bitLengthAux]
  | succ f ih =>
    intro n j hn
    unfold bitLengthAux
    split_ifs with h0
    · exact Nat.zero_le _
    · cases j with
      | zero => simp at hn; exact absurd hn h0
      | succ j =>
        have : n / 2 < 2 ^ j := by
          rw [Nat.div_lt_iff_lt_mul (by norm_num)]
          rw [pow_succ] at hn
          exact hn
        exact Nat.succ_le_succ (ih _ _ this)

theorem bitLength_le {n j : Nat} (hn : n < 2 ^ j) : bitLength n ≤ j :=
  bitLengthAux_le n n j hn

theorem lt_two_pow_bitLengthAux (fuel : Nat) :
    ∀ n, n ≤ fuel → n < 2 ^ bitLengthAux fuel n := by
  induction fuel with
  | zero => intro n hn; simp [bitLengthAux]; omega
  | succ f ih =>
    intro n hn
    unfold bitLengthAux
    split_ifs with h0
    · subst h0; simp
    · have h2 : n / 2 ≤ f := by omega
      have := ih _ h2
      rw [pow_succ]
      omega

theorem lt_two_pow_bitLength (n : Nat) : n < 2 ^ bitLength n :=
  lt_two_pow_bitLengthAux n n (le_refl n)

theorem bitLengthAux_zero (fuel : Nat) : bitLengthAux fuel 0 = 0 := by
  cases fuel <;> simp [bitLengthAux]

theorem two_pow_bitLengthAux_le (fuel : Nat) :
    ∀ n, n ≤ fuel → n ≠ 0 → 2 ^ (bitLengthAux fuel n - 1) ≤ n := by
  induction fuel with
  | zero => intro n hn h0; omega
  | succ f ih =>
    intro n hn h0
    unfold bitLengthAux
    rw [if_neg h0, Nat.add_sub_cancel]
    by_cases h2 : n / 2 = 0
    · rw [h2, bitLengthAux_zero]
      simp
      omega
    · have hle := ih (n / 2) (by omega) h2
      have hpos : 0 < bitLengthAux f (n / 2) := by
        unfold bitLengthAux
        cases f with
        | zero => omega
        | succ g => simp [h2]
      have : 2 ^ bitLengthAux f (n / 2) = 2 * 2 ^ (bitLengthAux f (n / 2) - 1) := by
        rw [← pow_succ']
        congr 1
        omega
      omega

/-- The halving count is the bit length: `2 ^ (bitLength n - 1) ≤ n < 2 ^ bitLength n`. -/
theorem bitLength_spec (n : Nat) (hn : n ≠ 0) :
    2 ^ (bitLength n - 1) ≤ n ∧ n < 2 ^ bitLength n :=
  ⟨two_pow_bitLengthAux_le n n (le_refl n) hn, lt_two_pow_bitLength n⟩

/-- The product on Numbers at inputs whose results are well known: `0.57 * 100` is
`56.99999999999999`, `1.005 * 100` is `100.49999999999999`, `0.07 * 100` is
`7.000000000000001`, `0.995 * 100` is `99.5`, and `0 * 100` is `0` whatever exponent the
zero carries. -/
theorem mul_hundred_examples :
    (JSNum.fin false 5134103575202365 (-53)).mul hundred = .fin false 8022036836253695 (-47) ∧
    (JSNum.fin false 4526117625507348 (-52)).mul hundred = .fin false 7072058789855231 (-46) ∧
    (JSNum.fin false 5044031582654956 (-56)).mul hundred = .fin false 7881299347898369 (-50) ∧
    (JSNum.fin false 8962163258467287 (-53)).mul hundred = .fin false 7001690045677568 (-46) ∧
    (JSNum.fin false 0 2000).mul hundred = .fin false 0 2000 := by
  decide

theorem roundShift_zero (m : Nat) : roundShift m 0 = m := by
  simp [roundShift, Nat.mod_one]

theorem roundShift_zero_left (s : Nat) : roundShift 0 s = 0 := by
  simp [roundShift]

theorem roundShift_le {m s c : Nat} (h : m ≤ c * 2 ^ s) : roundShift m s ≤ c := by
  have hpos : 0 < 2 ^ s := Nat.pow_pos (by norm_num)
  have hq : m / 2 ^ s ≤ c := Nat.div_le_of_le_mul (by rw [Nat.mul_comm]; exact h)
  rcases Nat.lt_or_eq_of_le hq with hlt | heq
  · unfold roundShift
    simp only
    split_ifs <;> omega
  · have hm : m = c * 2 ^ s := by
      apply le_antisymm h
      rw [← heq]
      exact Nat.div_mul_le_self m (2 ^ s)
    have hr : m % 2 ^ s = 0 := by rw [hm]; exact Nat.mul_mod_left _ _
    unfold roundShift
    simp only [hr]
    rw [if_pos (by omega)]
    exact hq

theorem roundToDouble_small (negative : Bool) (M : Nat) (E : Int)
    (h : MagnitudeLe 100 M E) :
    ∃ M' E', roundToDouble negative M E = .fin negative M' E' ∧ MagnitudeLe 100 M' E' ∧
      (M = 0 → M' = 0) := by
  by_cases hM : M = 0
  · subst hM
    refine ⟨0, E + max (max ((bitLength 0 : Int) - 53) (-1074 - E)) 0, ?_, Or.inl rfl,
      fun _ => rfl⟩
    simp [roundToDouble, roundShift_zero_left]
  · rcases h with h | ⟨hE, hle⟩
    · exact absurd h hM
    · obtain ⟨k, hk⟩ : ∃ k : Nat, E = -(k : Int) := ⟨(-E).toNat, by omega⟩
      subst hk
      have hkk : (- -(k : Int)).toNat = k := by omega
      rw [hkk] at hle
      have hbl : bitLength M ≤ k + 7 := by
        apply bitLength_le
        have : 2 ^ (k + 7) = 128 * 2 ^ k := by rw [pow_add]; ring
        have hpos : 0 < 2 ^ k := Nat.pow_pos (by norm_num)
        omega
      obtain ⟨sN, hs, hsk⟩ : ∃ sN : Nat,
          max (max ((bitLength M : Int) - 53) (-1074 - -(k : Int))) 0 = (sN : Int) ∧ sN ≤ k := by
        refine ⟨(max (max ((bitLength M : Int) - 53) (-1074 - -(k : Int))) 0).toNat, ?_, ?_⟩
        · omega
        · omega
      have hpow : 2 ^ k = 2 ^ (k - sN) * 2 ^ sN := by
        rw [← pow_add]; congr 1; omega
      have hM' : roundShift M sN ≤ 100 * 2 ^ (k - sN) := by
        apply roundShift_le
        rw [Nat.mul_assoc, ← hpow]
        exact hle
      have hbl' : bitLength (roundShift M sN) ≤ (k - sN) + 7 := by
        apply bitLength_le
        have : 2 ^ (k - sN + 7) = 128 * 2 ^ (k - sN) := by rw [pow_add]; ring
        have hpos : 0 < 2 ^ (k - sN) := Nat.pow_pos (by norm_num)
        omega
      refine ⟨roundShift M sN, -(k : Int) + sN, ?_, Or.inr ⟨by omega, ?_⟩,
        fun h0 => absurd h0 hM⟩
      · unfold roundToDouble
        simp only [hs, Int.toNat_ofNat]
        rw [if_neg]
        intro hc
        omega
      · have : (-(-(k : Int) + sN)).toNat = k - sN := by omega
        rw [this]
        exact hM'

theorem mul_hundred_small (negative : Bool) (m : Nat) (e : Int) (h : MagnitudeLe 1 m e) :
    ∃ M' E', (JSNum.fin negative m e).mul hundred = .fin negative M' E' ∧
      MagnitudeLe 100 M' E' ∧ (m = 0 → M' = 0) := by
  have hM : MagnitudeLe 100 (m * 100) (e + 0) := by
    rcases h with h | ⟨he, hle⟩
    · exact Or.inl (by simp [h])
    · refine Or.inr ⟨by omega, ?_⟩
      rw [Int.add_zero]
      calc m * 100 ≤ (1 * 2 ^ (-e).toNat) * 100 := Nat.mul_le_mul_right _ hle
        _ = 100 * 2 ^ (-e).toNat := by ring
  obtain ⟨M', E', h1, h2, h3⟩ := roundToDouble_small (xor negative false) (m * 100) (e + 0) hM
  refine ⟨M', E', ?_, h2, fun h0 => h3 (by simp [h0])⟩
  simpa [JSNum.mul, hundred] using h1

theorem toRat_zero (negative : Bool) (e : Int) : (JSNum.fin negative 0 e).toRat = 0 := by
  simp [JSNum.toRat]

theorem toRat_neg_exp (M k : Nat) :
    (JSNum.fin false M (-(k : Int))).toRat = (M : ℚ) / 2 ^ k := by
  simp [JSNum.toRat, zpow_neg, div_eq_mul_inv]

theorem floor_scaled_add_half (c M k : Nat) :
    ⌊(c : ℚ) * ((M : ℚ) / 2 ^ k) + 1 / 2⌋ = ((2 * c * M + 2 ^ k) / 2 ^ (k + 1) : ℕ) := by
  have h : (c : ℚ) * ((M : ℚ) / 2 ^ k) + 1 / 2 =
      ((2 * c * M + 2 ^ k : ℕ) : ℚ) / ((2 ^ (k + 1) : ℕ) : ℚ) := by
    push_cast
    field_simp
    ring
  rw [h, Rat.floor_natCast_div_natCast]
  norm_cast

theorem mathRound_small (negative : Bool) (M : Nat) (E : Int) (h : MagnitudeLe 100 M E)
    (hneg : negative = true → M = 0) :
    ∃ n : Nat, n ≤ 100 ∧ mathRound (.fin negative M E) = .fin negative n 0 ∧
      (negative = true → n = 0) ∧
      (n : Int) = ⌊(JSNum.fin negative M E).toRat + 1 / 2⌋ := by
  by_cases hM : M = 0
  · subst hM
    refine ⟨0, Nat.zero_le _, ?_, fun _ => rfl, ?_⟩
    · simp only [mathRound]
      split_ifs with h0 h1
      · simp
      · have : (2 * 0 + 2 ^ (-E).toNat - 1) / 2 ^ ((-E).toNat + 1) = 0 := by
          apply Nat.div_eq_of_lt
          rw [pow_succ]
          have hpos : 0 < 2 ^ (-E).toNat := Nat.pow_pos (by norm_num)
          omega
        simp only [this, h1]
      · have : (2 * 0 + 2 ^ (-E).toNat) / 2 ^ ((-E).toNat + 1) = 0 := by
          apply Nat.div_eq_of_lt
          rw [pow_succ]
          have hpos : 0 < 2 ^ (-E).toNat := Nat.pow_pos (by norm_num)
          omega
        simp only [this]
        simp at h1
        rw [h1]
    · rw [toRat_zero]
      norm_num
  · have hpos : negative = false := by
      cases negative with
      | false => rfl
      | true => exact absurd (hneg rfl) hM
    subst hpos
    rcases h with h | ⟨hE, hle⟩
    · exact absurd h hM
    · obtain ⟨k, hk⟩ : ∃ k : Nat, E = -(k : Int) := ⟨(-E).toNat, by omega⟩
      subst hk
      have hkk : (- -(k : Int)).toNat = k := by omega
      rw [hkk] at hle
      have hfloor := floor_scaled_add_half 1 M k
      rw [Nat.cast_one, one_mul, ← toRat_neg_exp] at hfloor
      have hpk : 0 < 2 ^ k := Nat.pow_pos (by norm_num)
      have hn : (2 * 1 * M + 2 ^ k) / 2 ^ (k + 1) ≤ 100 := by
        apply Nat.le_of_lt_succ
        rw [Nat.div_lt_iff_lt_mul (Nat.pow_pos (by norm_num))]
        rw [pow_succ]
        omega
      cases k with
      | zero =>
        refine ⟨M, by simpa using hle, ?_, fun hc => absurd hc (by simp), ?_⟩
        · simp [mathRound]
        · rw [hfloor]
          norm_num
          omega
      | succ j =>
        refine ⟨(2 * 1 * M + 2 ^ (j + 1)) / 2 ^ (j + 1 + 1), hn, ?_,
          fun hc => absurd hc (by simp), hfloor.symm⟩
        have hlt : ¬ (0 : Int) ≤ -((j + 1 : Nat) : Int) := by omega
        simp only [mathRound]
        rw [if_neg hlt]
        simp only [hkk, Bool.false_eq_true, if_false]

theorem numberToString_small (other : JSNum → JSString) (negative : Bool) (n : Nat)
    (hn : n ≤ 100) (hneg : negative = true → n = 0) :
    numberToString other (.fin negative n 0) = Nat.toDigits 10 n := by
  have h53 : n * 2 ^ (0 : Int).toNat < 2 ^ 53 := by
    simp
    omega
  have hs : safeInteger? n 0 = some n := by
    unfold safeInteger?
    rw [if_pos (le_refl _), if_pos h53]
    simp
  unfold numberToString
  simp only [hs]
  have : ¬ (negative = true ∧ n ≠ 0) := fun hc => hc.2 (hneg hc.1)
  rw [if_neg this]
  rfl

theorem magnitudeLe_of_isProbability {negative : Bool} {m : Nat} {e : Int}
    (h0 : 0 ≤ (JSNum.fin negative m e).toRat) (h1 : (JSNum.fin negative m e).toRat ≤ 1) :
    MagnitudeLe 1 m e ∧ (negative = true → m = 0) := by
  have hpow : (0 : ℚ) < 2 ^ e := zpow_pos (by norm_num) e
  by_cases hm : m = 0
  · exact ⟨Or.inl hm, fun _ => hm⟩
  · have hmpos : (0 : ℚ) < m := Nat.cast_pos.2 (Nat.pos_of_ne_zero hm)
    have hnegF : negative = false := by
      cases negative with
      | false => rfl
      | true =>
        exfalso
        have : (JSNum.fin true m e).toRat < 0 := by
          simp only [JSNum.toRat, if_true]
          have := mul_pos hmpos hpow
          linarith
        linarith
    subst hnegF
    refine ⟨Or.inr ?_, fun hc => absurd hc (by simp)⟩
    have hval : (m : ℚ) * 2 ^ e ≤ 1 := by simpa [JSNum.toRat] using h1
    have hm1 : (1 : ℚ) ≤ m := by exact_mod_cast Nat.pos_of_ne_zero hm
    have he : e ≤ 0 := by
      by_contra hc
      obtain ⟨k, hk⟩ : ∃ k : Nat, e = (k : Int) + 1 := ⟨(e - 1).toNat, by omega⟩
      subst hk
      have h2 : (2 : ℚ) ≤ 2 ^ ((k : Int) + 1) := by
        have : (2 : ℚ) ^ ((k : Int) + 1) = 2 ^ (k + 1) := by
          rw [← zpow_natCast]; push_cast; rfl
        rw [this, pow_succ]
        have : (1 : ℚ) ≤ 2 ^ k := one_le_pow₀ (by norm_num)
        linarith
      nlinarith
    refine ⟨he, ?_⟩
    obtain ⟨k, hk⟩ : ∃ k : Nat, e = -(k : Int) := ⟨(-e).toNat, by omega⟩
    subst hk
    have hkk : (- -(k : Int)).toNat = k := by omega
    rw [hkk, one_mul]
    have hq : (m : ℚ) ≤ 2 ^ k := by
      rw [zpow_neg, zpow_natCast] at hval
      have hk0 : (0 : ℚ) < 2 ^ k := pow_pos (by norm_num) k
      rwa [← div_eq_mul_inv, div_le_one hk0] at hval
    exact_mod_cast hq

theorem toDigitsCore_append (b : Nat) (fuel : Nat) :
    ∀ n ds, Nat.toDigitsCore b fuel n ds = Nat.toDigitsCore b fuel n [] ++ ds := by
  induction fuel with
  | zero => intro n ds; simp [Nat.toDigitsCore]
  | succ f ih =>
    intro n ds
    simp only [Nat.toDigitsCore]
    split_ifs with h0
    · simp
    · rw [ih (n / b) (Nat.digitChar (n % b) :: ds), ih (n / b) [Nat.digitChar (n % b)]]
      simp

theorem toDigitsCore_fuel (fuel : Nat) :
    ∀ n fuel', n < fuel → n < fuel' →
      Nat.toDigitsCore 10 fuel n [] = Nat.toDigitsCore 10 fuel' n [] := by
  induction fuel with
  | zero => intro n fuel' h; omega
  | succ f ih =>
    intro n fuel' _ h'
    cases fuel' with
    | zero => omega
    | succ f' =>
      simp only [Nat.toDigitsCore]
      split_ifs with h0
      · rfl
      · have hlt : n / 10 < n := Nat.div_lt_self (by omega) (by norm_num)
        rw [toDigitsCore_append 10 f, toDigitsCore_append 10 f',
          ih (n / 10) f' (by omega) (by omega)]

theorem toDigits_lt_ten {n : Nat} (hn : n < 10) : Nat.toDigits 10 n = [Nat.digitChar n] := by
  have h0 : n / 10 = 0 := Nat.div_eq_of_lt hn
  simp [Nat.toDigits, Nat.toDigitsCore, h0, Nat.mod_eq_of_lt hn]

theorem toDigits_ge_ten {n : Nat} (hn : 10 ≤ n) :
    Nat.toDigits 10 n = Nat.toDigits 10 (n / 10) ++ [Nat.digitChar (n % 10)] := by
  have h0 : n / 10 ≠ 0 := by omega
  have hlt : n / 10 < n := Nat.div_lt_self (by omega) (by norm_num)
  have e1 : Nat.toDigits 10 n =
      Nat.toDigitsCore 10 n (n / 10) [Nat.digitChar (n % 10)] := by
    show Nat.toDigitsCore 10 (n + 1) n [] = _
    simp only [Nat.toDigitsCore]
    rw [if_neg h0]
  have e2 : Nat.toDigits 10 (n / 10) = Nat.toDigitsCore 10 (n / 10 + 1) (n / 10) [] := rfl
  rw [e1, e2, toDigitsCore_append 10 n,
    toDigitsCore_fuel n (n / 10) (n / 10 + 1) hlt (by omega)]

theorem toDigits_length_pos (n : Nat) : 0 < (Nat.toDigits 10 n).length := by
  by_cases hn : n < 10
  · rw [toDigits_lt_ten hn]; simp
  · rw [toDigits_ge_ten (by omega)]; simp

theorem insertPoint_eq (n : Nat) :
    insertPoint n = Nat.toDigits 10 (n / 10) ++ ['.'] ++ Nat.toDigits 10 (n % 10) := by
  by_cases hn : n < 10
  · have h0 : n / 10 = 0 := Nat.div_eq_of_lt hn
    rw [h0, Nat.mod_eq_of_lt hn]
    simp [insertPoint, toDigits_lt_ten hn, toDigits_lt_ten (show 0 < 10 by norm_num)]
    rfl
  · have hlen := toDigits_length_pos (n / 10)
    have hmod : n % 10 < 10 := Nat.mod_lt _ (by norm_num)
    rw [toDigits_lt_ten hmod]
    unfold insertPoint
    simp only [toDigits_ge_ten (show 10 ≤ n by omega), List.length_append, List.length_singleton]
    rw [if_neg (by omega)]
    simp

theorem nearestTenths_small (negative : Bool) (M : Nat) (E : Int) (h : MagnitudeLe 100 M E)
    (hneg : negative = true → M = 0) :
    magnitudeAtLeast (10 ^ 21) M E = false ∧
    (nearestTenths M E : Int) = ⌊10 * (JSNum.fin negative M E).toRat + 1 / 2⌋ := by
  by_cases hM : M = 0
  · subst hM
    have hpos : 0 < 2 ^ (-E).toNat := Nat.pow_pos (by norm_num)
    refine ⟨?_, ?_⟩
    · unfold magnitudeAtLeast
      split_ifs <;> simp
    · rw [toRat_zero]
      have : nearestTenths 0 E = 0 := by
        unfold nearestTenths
        split_ifs
        · simp
        · apply Nat.div_eq_of_lt
          rw [pow_succ]
          omega
      rw [this]
      norm_num
  · have hposs : negative = false := by
      cases negative with
      | false => rfl
      | true => exact absurd (hneg rfl) hM
    subst hposs
    rcases h with h | ⟨hE, hle⟩
    · exact absurd h hM
    · obtain ⟨k, hk⟩ : ∃ k : Nat, E = -(k : Int) := ⟨(-E).toNat, by omega⟩
      subst hk
      have hkk : (- -(k : Int)).toNat = k := by omega
      rw [hkk] at hle
      have hpk : 0 < 2 ^ k := Nat.pow_pos (by norm_num)
      have hfloor := floor_scaled_add_half 10 M k
      rw [← toRat_neg_exp] at hfloor
      push_cast at hfloor
      cases k with
      | zero =>
        refine ⟨?_, ?_⟩
        · simp [magnitudeAtLeast]
          omega
        · rw [hfloor]
          simp [nearestTenths]
          omega
      | succ j =>
        have hlt : ¬ (0 : Int) ≤ -((j + 1 : Nat) : Int) := by omega
        refine ⟨?_, ?_⟩
        · unfold magnitudeAtLeast
          rw [if_neg hlt, hkk]
          simp only [decide_eq_false_iff_not, not_le]
          calc M ≤ 100 * 2 ^ (j + 1) := hle
            _ < 10 ^ 21 * 2 ^ (j + 1) := by
              apply Nat.mul_lt_mul_of_pos_right (by norm_num) hpk
        · rw [hfloor]
          unfold nearestTenths
          rw [if_neg hlt, hkk]
          norm_num

theorem toFixed1_small (other : JSNum → JSString) (negative : Bool) (M : Nat) (E : Int)
    (h : MagnitudeLe 100 M E) (hneg : negative = true → M = 0) :
    toFixed1 other (.fin negative M E) = oneDecimal (JSNum.fin negative M E).toRat := by
  obtain ⟨hmag, hn⟩ := nearestTenths_small negative M E h hneg
  have hsign : ¬ (negative = true ∧ M ≠ 0) := fun hc => hc.2 (hneg hc.1)
  simp only [toFixed1, hmag, Bool.false_eq_true, if_false, if_neg hsign, List.nil_append]
  unfold oneDecimal
  simp only [← hn, Int.toNat_ofNat]
  exact insertPoint_eq _

theorem pillValue_of_isProbability (h : Host) (v : JSNum) (hv : v.IsProbability) :
    pillValue h v = oneDecimal (v.mul hundred).toRat ++ ['%'] := by
  obtain ⟨negative, m, e, rfl, h0, h1⟩ := hv
  obtain ⟨hmag, hneg⟩ := magnitudeLe_of_isProbability h0 h1
  obtain ⟨M', E', hmul, hM', hz⟩ := mul_hundred_small negative m e hmag
  unfold pillValue
  rw [hmul, toFixed1_small _ negative M' E' hM' (fun hc => hz (hneg hc))]

theorem barWidth_of_isProbability (h : Host) (v : JSNum) (hv : v.IsProbability) :
    ∃ n : Nat, n ≤ 100 ∧ (n : Int) = ⌊(v.mul hundred).toRat + 1 / 2⌋ ∧
      barWidth h v = Nat.toDigits 10 n ++ ['%'] := by
  obtain ⟨negative, m, e, rfl, h0, h1⟩ := hv
  obtain ⟨hmag, hneg⟩ := magnitudeLe_of_isProbability h0 h1
  obtain ⟨M', E', hmul, hM', hz⟩ := mul_hundred_small negative m e hmag
  obtain ⟨n, hn, hround, hn0, hfloor⟩ :=
    mathRound_small negative M' E' hM' (fun hc => hz (hneg hc))
  refine ⟨n, hn, ?_, ?_⟩
  · rw [hmul]; exact hfloor
  · unfold barWidth
    rw [hmul, hround, numberToString_small _ negative n hn hn0]

/-- C8. For every response whose score is a finite Number in the unit interval, the width
of the bar in the card `ResultCard` returns is `n%`, where `n`, written in decimal digits,
is the integer nearest to the Number `score * 100`, a tie going upwards, and `n ≤ 100`. -/
theorem barWidth_percent (h : Host) (r : ClassificationResponse)
    (hp : r.score.IsProbability) :
    ∃ n : Nat, n ≤ 100 ∧ (n : Int) = ⌊(r.score.mul hundred).toRat + 1 / 2⌋ ∧
      ResultCard h r.toJS = .ok (some (View.card
        ("pill ".toList ++ actionClass (.str r.action)) (.str r.action) (.str r.label)
        (Nat.toDigits 10 n ++ ['%'])
        (r.scoreEntries.map (fun kv => Pill.mk kv.1 kv.1 (pillValue h kv.2)))
        r.rationaleText)) := by
  obtain ⟨n, hn, hfloor, hw⟩ := barWidth_of_isProbability h r.score hp
  exact ⟨n, hn, hfloor, by rw [ResultCard_toJS, hw]⟩

/-- C8 at scenario A: the score `0.87` is in the unit interval and its bar is `87%` wide;
the score `0.995`, whose product with `100` is the Number `99.5`, gives `100%`. -/
theorem barWidth_percent_witness :
    scenarioA.score.IsProbability ∧
    (∀ h : Host, ∃ n : Nat, n ≤ 100 ∧
      (n : Int) = ⌊(scenarioA.score.mul hundred).toRat + 1 / 2⌋ ∧
      ResultCard h scenarioA.toJS = .ok (some (View.card
        ("pill ".toList ++ actionClass (.str scenarioA.action)) (.str scenarioA.action)
        (.str scenarioA.label) (Nat.toDigits 10 n ++ ['%'])
        (scenarioA.scoreEntries.map (fun kv => Pill.mk kv.1 kv.1 (pillValue h kv.2)))
        scenarioA.rationaleText))) ∧
    (∀ h : Host, barWidth h scenarioA.score = "87%".toList) ∧
    (∀ h : Host, barWidth h (.fin false 8962163258467287 (-53)) = "100%".toList) :=
  ⟨⟨false, 7836263351624663, -53, rfl, by norm_num [JSNum.toRat, scenarioA], by norm_num [JSNum.toRat, scenarioA]⟩,
   fun h => barWidth_percent h scenarioA
     ⟨false, 7836263351624663, -53, rfl, by norm_num [JSNum.toRat, scenarioA], by norm_num [JSNum.toRat, scenarioA]⟩,
   fun _ => rfl, fun _ => rfl⟩

theorem pills_of_absent_scores (h : Host) (b : JSVal)
    (hb : getProp b "scores".toList = .undefined) : pills h b = .ok [] := by
  unfold pills
  rw [hb]
  rfl

theorem scenarioA_scores_probabilities :
    ∀ kv ∈ scenarioA.scoreEntries, kv.2.IsProbability := by
  intro kv hkv
  have hmem : kv = ("sensitive".toList, JSNum.fin false 7836263351624663 (-53)) ∨
      kv = ("normal".toList, JSNum.fin false 4683743612465316 (-55)) := by
    simpa [scenarioA, ClassificationResponse.scoreEntries] using hkv
  rcases hmem with rfl | rfl
  · exact ⟨false, 7836263351624663, -53, rfl, by norm_num [JSNum.toRat],
      by norm_num [JSNum.toRat]⟩
  · exact ⟨false, 4683743612465316, -55, rfl, by norm_num [JSNum.toRat],
      by norm_num [JSNum.toRat]⟩

/-- C9. For every response whose scores are finite Numbers in the unit interval, the card
`ResultCard` returns has one pill for each entry of `scores`, in the order of the entries,
labelled with the key and showing the Number `v * 100` rounded to the nearest tenth, the
upper one on a tie, written with exactly one fraction digit and followed by `%`; a response
without `scores` gets a card with no pill, and for every value without a `scores` property
the pills are built without an error and are none. -/
theorem score_pills (h : Host) (r : ClassificationResponse)
    (hp : ∀ kv ∈ r.scoreEntries, kv.2.IsProbability) :
    ResultCard h r.toJS = .ok (some (View.card
      ("pill ".toList ++ actionClass (.str r.action)) (.str r.action) (.str r.label)
      (barWidth h r.score)
      (r.scoreEntries.map
        (fun kv => Pill.mk kv.1 kv.1 (oneDecimal (kv.2.mul hundred).toRat ++ ['%'])))
      r.rationaleText)) ∧
    (r.scores = none → ResultCard h r.toJS = .ok (some (View.card
      ("pill ".toList ++ actionClass (.str r.action)) (.str r.action) (.str r.label)
      (barWidth h r.score) [] r.rationaleText))) ∧
    (∀ b : JSVal, getProp b "scores".toList = .undefined → pills h b = .ok []) := by
  have hmap : r.scoreEntries.map (fun kv => Pill.mk kv.1 kv.1 (pillValue h kv.2)) =
      r.scoreEntries.map
        (fun kv => Pill.mk kv.1 kv.1 (oneDecimal (kv.2.mul hundred).toRat ++ ['%'])) := by
    apply List.map_congr_left
    intro kv hkv
    rw [pillValue_of_isProbability h kv.2 (hp kv hkv)]
  refine ⟨by rw [ResultCard_toJS, hmap], ?_, pills_of_absent_scores h⟩
  intro hnone
  rw [ResultCard_toJS]
  simp [ClassificationResponse.scoreEntries, hnone]

/-- C9 at scenario A: both scores are in the unit interval, and the card has the two pills
`sensitive 87.0%` and `normal 13.0%`, in this order. -/
theorem score_pills_witness :
    (∀ kv ∈ scenarioA.scoreEntries, kv.2.IsProbability) ∧
    (∀ h : Host, ResultCard h scenarioA.toJS = .ok (some (View.card
      ("pill ".toList ++ actionClass (.str scenarioA.action)) (.str scenarioA.action)
      (.str scenarioA.label) (barWidth h scenarioA.score)
      (scenarioA.scoreEntries.map
        (fun kv => Pill.mk kv.1 kv.1 (oneDecimal (kv.2.mul hundred).toRat ++ ['%'])))
      scenarioA.rationaleText))) ∧
    (∀ h : Host, ResultCard h scenarioA.toJS = .ok (some (View.card "pill warn".toList
      (.str "Quarantine for Review".toList) (.str "sensitive".toList) "87%".toList
      [⟨"sensitive".toList, "sensitive".toList, "87.0%".toList⟩,
        ⟨"normal".toList, "normal".toList, "13.0%".toList⟩] none))) :=
  ⟨scenarioA_scores_probabilities,
   fun h => (score_pills h scenarioA scenarioA_scores_probabilities).1,
   fun _ => rfl⟩

end DlpUi
